import Mathlib

/-!
A verification development for the monitoring-dashboard data layer
(`app.py`): column normalization (`_normalize_columns`), schema bootstrap
(`ensure_db_and_table`), full-table load (`load_all`) and the inline
ping-status filter.

The embedding models a pandas `DataFrame` as a header (list of column
names) together with a list of rows, where each cell is a `Val`:
a missing value (`null`, standing for `None`/`NaN`/`NaT`), a number
(`num`, SQLite `REAL` / pandas float), a string (`str`) or a parsed
date-time (`date`, pandas `datetime64` at second granularity — the
timestamps handled by the app carry no sub-second part).  The SQLite
store is modelled as `Option Df` (the `logs` table, if it exists), and
the fallible `SELECT` read as an `Except` value.
-/

namespace Dashboard

/-- A date-time value at second granularity, as produced by parsing a
`YYYY-MM-DD HH:MM:SS` string. -/
structure DateTime where
  year : Nat
  month : Nat
  day : Nat
  hour : Nat
  minute : Nat
  second : Nat
deriving DecidableEq

/-- One cell of a data frame. -/
inductive Val where
  | null
  | num (q : Rat)
  | str (s : String)
  | date (t : DateTime)
deriving DecidableEq

/-- The character for a decimal digit `d < 10`. -/
def digitChar (d : Nat) : Char := Char.ofNat (48 + d)

/-- Two-digit zero-padded rendering (as in `strftime` `%m`, `%d`, …). -/
def pad2 (n : Nat) : List Char := [digitChar (n / 10 % 10), digitChar (n % 10)]

/-- Four-digit zero-padded rendering (as in `strftime` `%Y`). -/
def pad4 (n : Nat) : List Char :=
  [digitChar (n / 1000 % 10), digitChar (n / 100 % 10), digitChar (n / 10 % 10),
   digitChar (n % 10)]

/-- Parse a non-empty all-digit character list as a natural number. -/
def parseNatDigits (cs : List Char) : Option Nat :=
  if cs ≠ [] ∧ cs.all (·.isDigit) then
    some (cs.foldl (fun n c => n * 10 + (c.toNat - 48)) 0)
  else none

/-- Split a character list on a separator (like `str.split`). -/
def splitOn (c : Char) : List Char → List (List Char)
  | [] => [[]]
  | x :: xs =>
    match splitOn c xs with
    | [] => if x = c then [[], []] else [[x]]
    | g :: gs => if x = c then [] :: g :: gs else (x :: g) :: gs

/-- Field ranges accepted when parsing a date-time. -/
def DateTime.inRange (t : DateTime) : Prop :=
  t.year ≤ 9999 ∧ 1 ≤ t.month ∧ t.month ≤ 12 ∧ 1 ≤ t.day ∧ t.day ≤ 31 ∧
    t.hour ≤ 23 ∧ t.minute ≤ 59 ∧ t.second ≤ 59

instance (t : DateTime) : Decidable t.inRange := by
  unfold DateTime.inRange; infer_instance

/-- Assemble a date-time from parsed fields, rejecting out-of-range values. -/
def mkDT (y mo d h mi s : Nat) : Option DateTime :=
  let t : DateTime := ⟨y, mo, d, h, mi, s⟩
  if t.inRange then some t else none

/-- Parse a `YYYY-MM-DD HH:MM:SS` character list into a date-time.
This models `pd.to_datetime(_, errors="coerce")` on the timestamp strings
the app reads and writes (the format fixed by line 67 of `app.py`). -/
def parseDTChars (cs : List Char) : Option DateTime :=
  match splitOn ' ' cs with
  | [dp, tp] =>
    match splitOn '-' dp, splitOn ':' tp with
    | [ys, mos, ds], [hs, mis, ss] =>
      match parseNatDigits ys, parseNatDigits mos, parseNatDigits ds,
            parseNatDigits hs, parseNatDigits mis, parseNatDigits ss with
      | some y, some mo, some d, some h, some mi, some s => mkDT y mo d h mi s
      | _, _, _, _, _, _ => none
    | _, _ => none
  | _ => none

/-- The `YYYY-MM-DD` date half of the rendered timestamp. -/
def dateChars (t : DateTime) : List Char :=
  pad4 t.year ++ '-' :: (pad2 t.month ++ '-' :: pad2 t.day)

/-- The `HH:MM:SS` time half of the rendered timestamp. -/
def timeChars (t : DateTime) : List Char :=
  pad2 t.hour ++ ':' :: (pad2 t.minute ++ ':' :: pad2 t.second)

/-- Render a date-time back to `YYYY-MM-DD HH:MM:SS` characters
(`strftime("%Y-%m-%d %H:%M:%S")`, line 67 of `app.py`). -/
def formatDTChars (t : DateTime) : List Char :=
  dateChars t ++ ' ' :: timeChars t

/-- String-level timestamp parse. -/
def parseDT (s : String) : Option DateTime := parseDTChars s.data

/-- String-level timestamp rendering. -/
def formatDT (t : DateTime) : String := String.mk (formatDTChars t)

/-- Parse an unsigned decimal numeral (digits with an optional fractional
part) as a rational. -/
def parseUnsignedChars (cs : List Char) : Option Rat :=
  match splitOn '.' cs with
  | [w] => (parseNatDigits w).map (fun n => (n : Rat))
  | [w, f] =>
    match parseNatDigits w, parseNatDigits f with
    | some n, some m => some ((n : Rat) + (m : Rat) / ((10 : Rat) ^ f.length))
    | _, _ => none
  | _ => none

/-- Parse a decimal numeral with optional leading minus; this models
`pd.to_numeric(_, errors="coerce")` on a string cell. -/
def parseNum (s : String) : Option Rat :=
  match s.data with
  | '-' :: rest => (parseUnsignedChars rest).map (fun q => -q)
  | cs => parseUnsignedChars cs

/-- A pandas `DataFrame`: named columns and a list of rows.  Cells are
addressed positionally inside a row; `header` gives the column names. -/
structure Df where
  header : List String
  rows : List (List Val)
deriving DecidableEq

/-- `DataFrame.empty`: true when either axis has length zero. -/
def Df.isEmpty (df : Df) : Bool := df.rows.isEmpty || df.header.isEmpty

/-- `len(df)`: the number of rows. -/
def Df.len (df : Df) : Nat := df.rows.length

/-- The canonical schema (`wanted`, line 26 of `app.py`). -/
def wanted : List String := ["Timestamp", "CPU", "Memory", "Disk", "Ping_Status", "Ping_ms"]

/-- ASCII lowercasing of one character (Python `str.lower()` on the
ASCII column names the app deals with). -/
def lowerChar (c : Char) : Char :=
  if 'A' ≤ c ∧ c ≤ 'Z' then Char.ofNat (c.toNat + 32) else c

/-- ASCII lowercasing of a string. -/
def lowerStr (s : String) : String := String.mk (s.data.map lowerChar)

/-- Index of the last column whose lowercased name equals the lowercased
target.  This models the dict comprehension
`lower_map = {c.lower(): c for c in df.columns}` (line 28): a later
column with the same lowercase name overwrites an earlier one. -/
def lastLowerIdx (hdr : List String) (w : String) : Option Nat :=
  match hdr with
  | [] => none
  | c :: rest =>
    match lastLowerIdx rest w with
    | some j => some (j + 1)
    | none => if lowerStr c = lowerStr w then some 0 else none

/-- Index of the first column whose name equals the target exactly
(the `elif w in df.columns` fallback, line 34). -/
def exactIdx (hdr : List String) (w : String) : Option Nat :=
  match hdr with
  | [] => none
  | c :: rest => if c = w then some 0 else (exactIdx rest w).map (· + 1)

/-- The column-selection cascade of `_normalize_columns` (lines 30-38):
case-insensitive match first, then exact match, else no source column. -/
def selIdx (hdr : List String) (w : String) : Option Nat :=
  match lastLowerIdx hdr w with
  | some j => some j
  | none => exactIdx hdr w

/-- The cell selected for canonical field `w` from row `r`: the cell of
the selected source column, or a missing value when no column matched
(the `pd.Series([None] * len(df))` branch, line 38, viewed row-wise). -/
def selCell (df : Df) (r : List Val) (w : String) : Val :=
  match selIdx df.header w with
  | some j => r.getD j .null
  | none => .null

/-- `pd.to_datetime(_, errors="coerce")` on one cell (line 42).  A missing
value stays missing, a string parses or degrades to missing, an
already-parsed date-time passes through.  (Numeric cells are modelled as
unparseable: the app's timestamps are always text or missing.) -/
def coerceTs : Val → Val
  | .null => .null
  | .num _ => .null
  | .str s => match parseDT s with | some t => .date t | none => .null
  | .date t => .date t

/-- `pd.to_numeric(_, errors="coerce")` on one cell (line 46): numbers
pass through, numeric strings parse, everything else degrades to
missing. -/
def coerceNum : Val → Val
  | .null => .null
  | .num q => .num q
  | .str s => match parseNum s with | some q => .num q | none => .null
  | .date _ => .null

/-- `.astype(str)` on one cell (line 49): Python stringification.  A
missing value stringifies to the literal text `"None"` (the known
null-as-text quirk). -/
def coerceStr : Val → Val
  | .null => .str "None"
  | .num q => .str (toString q)
  | .str s => .str s
  | .date t => .str (formatDT t)

/-- The per-field coercion applied by lines 41-49: `Timestamp` is parsed
to a date-time, `Ping_Status` is stringified, the four metric fields are
numerified. -/
def coerceFor (w : String) : Val → Val :=
  if w = "Timestamp" then coerceTs
  else if w = "Ping_Status" then coerceStr
  else coerceNum

/-- One output row of `_normalize_columns`: the canonical fields in fixed
order, each selected from the input row and coerced.  This is the
row-level view of the column-wise pandas code (selection builds the
columns of `df2`, coercion then rewrites each column). -/
def normalizeRow (df : Df) (r : List Val) : List Val :=
  wanted.map (fun w => coerceFor w (selCell df r w))

/-- `_normalize_columns` (lines 24-50): map arbitrary input columns onto
the canonical six-field schema and coerce each field's type. -/
def _normalize_columns (df : Df) : Df :=
  { header := wanted, rows := df.rows.map (normalizeRow df) }

/-- The date-time key of a cell: `some` for parsed timestamps, `none` for
anything missing (NaT). -/
def tsOf (v : Val) : Option DateTime := match v with | .date t => some t | _ => none

/-- Chronological comparison of two date-times (lexicographic on the six
fields). -/
def DateTime.leb (a b : DateTime) : Bool :=
  decide (a.year < b.year ∨ (a.year = b.year ∧
    (a.month < b.month ∨ (a.month = b.month ∧
      (a.day < b.day ∨ (a.day = b.day ∧
        (a.hour < b.hour ∨ (a.hour = b.hour ∧
          (a.minute < b.minute ∨ (a.minute = b.minute ∧
            a.second ≤ b.second))))))))))

/-- Sort key order used by `sort_values("Timestamp")`: ascending with
missing timestamps (NaT) placed last (`na_position="last"`, the pandas
default). -/
def tsLe (x y : Option DateTime) : Bool :=
  match x, y with
  | none, none => true
  | none, some _ => false
  | some _, none => true
  | some a, some b => a.leb b

/-- The row ordering used by `sort_values("Timestamp")` when the
`Timestamp` column sits at index `j`. -/
def rowLe (j : Nat) (r1 r2 : List Val) : Prop :=
  tsLe (tsOf (r1.getD j .null)) (tsOf (r2.getD j .null)) = true

instance (j : Nat) : DecidableRel (rowLe j) := by
  unfold rowLe; infer_instance

/-- `df.sort_values("Timestamp")` (line 99): reorder the rows by the
`Timestamp` column, ascending, missing values last.  (The app only sorts
normalized frames, where the column exists at index 0.) -/
def sortByTimestamp (df : Df) : Df :=
  let j := (exactIdx df.header "Timestamp").getD df.header.length
  { header := df.header, rows := df.rows.insertionSort (rowLe j) }

/-- `load_all` (lines 87-99) given the frame read by
`SELECT * FROM logs`: an empty frame is returned as-is (normalization is
skipped), otherwise the frame is normalized and time-sorted. -/
def load_all (stored : Df) : Df :=
  if stored.isEmpty then stored
  else sortByTimestamp (_normalize_columns stored)

/-- `load_all` with the store read modelled as fallible.  The
`try/finally` around `pd.read_sql_query` (lines 90-93) has no `except`
clause: the connection is closed and the exception propagates to the
caller unchanged. -/
def load_all_result (q : Except String Df) : Except String Df :=
  match q with
  | .error e => .error e
  | .ok df => .ok (load_all df)

/-- Rewrite the cell at index `j` of a row with `f`, leaving the rest. -/
def mapCell (f : Val → Val) : Nat → List Val → List Val
  | _, [] => []
  | 0, v :: rest => f v :: rest
  | k + 1, v :: rest => v :: mapCell f k rest

/-- `strftime("%Y-%m-%d %H:%M:%S")` on one cell of a datetime column
(line 67): a parsed timestamp becomes its fixed-format string, a missing
timestamp (NaT) stays missing. -/
def fmtCell : Val → Val
  | .date t => .str (formatDT t)
  | _ => .null

/-- Serialize the `Timestamp` column to `YYYY-MM-DD HH:MM:SS` strings
before writing to SQLite (lines 66-67). -/
def fmtTs (df : Df) : Df :=
  let j := (exactIdx df.header "Timestamp").getD df.header.length
  { header := df.header, rows := df.rows.map (mapCell fmtCell j) }

/-- The empty `logs` table created by the `CREATE TABLE` branch
(lines 71-83): the six canonical columns, no rows. -/
def emptyLogs : Df := { header := wanted, rows := [] }

/-- `ensure_db_and_table` (lines 54-85).  The store is the `logs` table
if it exists (`Option Df`); `csv` is the parsed `log.csv` if that file
exists.  An existing table is left untouched; otherwise the CSV is
normalized, its timestamps serialized, and written as the new table; with
no CSV an empty canonical table is created. -/
def ensure_db_and_table (logs : Option Df) (csv : Option Df) : Option Df :=
  match logs with
  | some t => some t
  | none =>
    match csv with
    | some csvDf => some (fmtTs (_normalize_columns csvDf))
    | none => some emptyLogs

/-- The inline status filter (lines 119-121): any selection other than
`"全部"` keeps exactly the rows whose `Ping_Status` cell equals the
selected string. -/
def applyFilter (df : Df) (selected : String) : Df :=
  if selected ≠ "全部" then
    let j := (exactIdx df.header "Ping_Status").getD df.header.length
    { header := df.header,
      rows := df.rows.filter (fun r => r.getD j .null == .str selected) }
  else df

/-- A frame as `pd.read_csv` can produce it: cells are missing values,
numbers or strings — never already-parsed date-times. -/
def csvLike (df : Df) : Bool :=
  df.rows.all (fun r => r.all (fun v => match v with | .date _ => false | _ => true))

/-- The canonical per-field typing of one normalized row: six cells in
the fixed field order; the timestamp cell is a parsed date-time or
missing, the four metric cells are numeric or missing, and the status
cell is text. -/
def RowShape (r : List Val) : Prop :=
  r.length = 6 ∧
  (r.getD 0 Val.null = Val.null ∨ ∃ t, r.getD 0 Val.null = Val.date t) ∧
  (r.getD 1 Val.null = Val.null ∨ ∃ q, r.getD 1 Val.null = Val.num q) ∧
  (r.getD 2 Val.null = Val.null ∨ ∃ q, r.getD 2 Val.null = Val.num q) ∧
  (r.getD 3 Val.null = Val.null ∨ ∃ q, r.getD 3 Val.null = Val.num q) ∧
  (∃ s, r.getD 4 Val.null = Val.str s) ∧
  (r.getD 5 Val.null = Val.null ∨ ∃ q, r.getD 5 Val.null = Val.num q)

/-! ### Timestamp serialization round-trip -/

theorem digitChar_isDigit : ∀ d < 10, (digitChar d).isDigit = true := by decide

theorem digitChar_toNat : ∀ d < 10, (digitChar d).toNat = 48 + d := by decide

theorem mod_ten_lt (n : Nat) : n % 10 < 10 := Nat.mod_lt _ (by norm_num)

theorem not_mem_pad2 {c : Char} (hc : c.isDigit = false) (n : Nat) : c ∉ pad2 n := by
  intro hmem
  simp only [pad2, List.mem_cons, List.not_mem_nil, or_false] at hmem
  rcases hmem with h | h <;> subst h <;>
    simp [digitChar_isDigit _ (mod_ten_lt _)] at hc

theorem not_mem_pad4 {c : Char} (hc : c.isDigit = false) (n : Nat) : c ∉ pad4 n := by
  intro hmem
  simp only [pad4, List.mem_cons, List.not_mem_nil, or_false] at hmem
  rcases hmem with h | h | h | h <;> subst h <;>
    simp [digitChar_isDigit _ (mod_ten_lt _)] at hc

theorem parseNatDigits_pad2 {n : Nat} (h : n ≤ 99) : parseNatDigits (pad2 n) = some n := by
  have h1 := mod_ten_lt (n / 10)
  have h2 := mod_ten_lt n
  simp only [parseNatDigits, pad2, List.all_cons, List.all_nil,
    digitChar_isDigit _ h1, digitChar_isDigit _ h2, Bool.and_true, Bool.and_self,
    ne_eq, reduceCtorEq, not_false_eq_true, true_and, if_pos, List.foldl,
    digitChar_toNat _ h1, digitChar_toNat _ h2]
  congr 1
  omega

theorem parseNatDigits_pad4 {n : Nat} (h : n ≤ 9999) : parseNatDigits (pad4 n) = some n := by
  have h1 := mod_ten_lt (n / 1000)
  have h2 := mod_ten_lt (n / 100)
  have h3 := mod_ten_lt (n / 10)
  have h4 := mod_ten_lt n
  simp only [parseNatDigits, pad4, List.all_cons, List.all_nil,
    digitChar_isDigit _ h1, digitChar_isDigit _ h2, digitChar_isDigit _ h3,
    digitChar_isDigit _ h4, Bool.and_true, Bool.and_self,
    ne_eq, reduceCtorEq, not_false_eq_true, true_and, if_pos, List.foldl,
    digitChar_toNat _ h1, digitChar_toNat _ h2, digitChar_toNat _ h3, digitChar_toNat _ h4]
  congr 1
  omega

theorem splitOn_ne_nil (c : Char) (cs : List Char) : splitOn c cs ≠ [] := by
  cases cs with
  | nil => simp [splitOn]
  | cons x xs =>
    rw [splitOn]
    split <;> split <;> simp

theorem splitOn_not_mem {c : Char} {cs : List Char} (h : c ∉ cs) : splitOn c cs = [cs] := by
  induction cs with
  | nil => rfl
  | cons x xs ih =>
    simp only [List.mem_cons, not_or] at h
    have hx : ¬ x = c := fun hxc => h.1 hxc.symm
    rw [splitOn, ih h.2]
    simp [hx]

theorem splitOn_append {c : Char} {a b : List Char} (h : c ∉ a) :
    splitOn c (a ++ c :: b) = a :: splitOn c b := by
  induction a with
  | nil =>
    rw [List.nil_append, splitOn]
    rcases hb : splitOn c b with _ | ⟨g, gs⟩
    · exact absurd hb (splitOn_ne_nil c b)
    · simp
  | cons x xs ih =>
    simp only [List.mem_cons, not_or] at h
    have hx : ¬ x = c := fun hxc => h.1 hxc.symm
    rw [List.cons_append, splitOn, ih h.2]
    simp [hx]

theorem space_not_isDigit : (' ').isDigit = false := by decide

theorem dash_not_isDigit : ('-').isDigit = false := by decide

theorem colon_not_isDigit : (':').isDigit = false := by decide

theorem space_not_mem_dateChars (t : DateTime) : ' ' ∉ dateChars t := by
  simp only [dateChars, List.mem_append, List.mem_cons, not_or]
  exact ⟨not_mem_pad4 space_not_isDigit _, by decide,
    not_mem_pad2 space_not_isDigit _, by decide, not_mem_pad2 space_not_isDigit _⟩

theorem space_not_mem_timeChars (t : DateTime) : ' ' ∉ timeChars t := by
  simp only [timeChars, List.mem_append, List.mem_cons, not_or]
  exact ⟨not_mem_pad2 space_not_isDigit _, by decide,
    not_mem_pad2 space_not_isDigit _, by decide, not_mem_pad2 space_not_isDigit _⟩

theorem splitOn_dateChars (t : DateTime) :
    splitOn '-' (dateChars t) = [pad4 t.year, pad2 t.month, pad2 t.day] := by
  rw [dateChars, splitOn_append (not_mem_pad4 dash_not_isDigit _),
    splitOn_append (not_mem_pad2 dash_not_isDigit _),
    splitOn_not_mem (not_mem_pad2 dash_not_isDigit _)]

theorem splitOn_timeChars (t : DateTime) :
    splitOn ':' (timeChars t) = [pad2 t.hour, pad2 t.minute, pad2 t.second] := by
  rw [timeChars, splitOn_append (not_mem_pad2 colon_not_isDigit _),
    splitOn_append (not_mem_pad2 colon_not_isDigit _),
    splitOn_not_mem (not_mem_pad2 colon_not_isDigit _)]

theorem mkDT_inRange {y mo d h mi s : Nat} {t : DateTime}
    (hm : mkDT y mo d h mi s = some t) : t.inRange := by
  simp only [mkDT] at hm
  split at hm
  · cases hm
    assumption
  · cases hm

theorem parse_format_roundtrip {t : DateTime} (h : t.inRange) :
    parseDTChars (formatDTChars t) = some t := by
  obtain ⟨h1, h2, h3, h4, h5, h6, h7, h8⟩ := h
  simp only [parseDTChars, formatDTChars, splitOn_append (space_not_mem_dateChars t),
    splitOn_not_mem (space_not_mem_timeChars t), splitOn_dateChars, splitOn_timeChars,
    parseNatDigits_pad4 h1, parseNatDigits_pad2 (show t.month ≤ 99 by omega),
    parseNatDigits_pad2 (show t.day ≤ 99 by omega),
    parseNatDigits_pad2 (show t.hour ≤ 99 by omega),
    parseNatDigits_pad2 (show t.minute ≤ 99 by omega),
    parseNatDigits_pad2 (show t.second ≤ 99 by omega), mkDT]
  rw [if_pos]
  exact ⟨h1, h2, h3, h4, h5, h6, h7, h8⟩

theorem parseDTChars_inRange {cs : List Char} {t : DateTime}
    (h : parseDTChars cs = some t) : t.inRange := by
  rw [parseDTChars] at h
  repeat' split at h
  all_goals first
    | exact mkDT_inRange h
    | cases h

theorem parseDT_roundtrip {s : String} {t : DateTime} (h : parseDT s = some t) :
    parseDT (formatDT t) = some t := by
  have hr := parseDTChars_inRange h
  rw [parseDT, formatDT]
  exact parse_format_roundtrip hr

/-! ### Normalization helpers -/

theorem normalizeRow_eq (df : Df) (r : List Val) :
    normalizeRow df r =
      [coerceTs (selCell df r "Timestamp"), coerceNum (selCell df r "CPU"),
       coerceNum (selCell df r "Memory"), coerceNum (selCell df r "Disk"),
       coerceStr (selCell df r "Ping_Status"), coerceNum (selCell df r "Ping_ms")] := rfl

theorem coerceTs_shape (v : Val) : coerceTs v = Val.null ∨ ∃ t, coerceTs v = Val.date t := by
  cases v with
  | null => exact Or.inl rfl
  | num q => exact Or.inl rfl
  | str s =>
    simp only [coerceTs]
    rcases parseDT s with _ | t
    · exact Or.inl rfl
    · exact Or.inr ⟨t, rfl⟩
  | date t => exact Or.inr ⟨t, rfl⟩

theorem coerceNum_shape (v : Val) : coerceNum v = Val.null ∨ ∃ q, coerceNum v = Val.num q := by
  cases v with
  | null => exact Or.inl rfl
  | num q => exact Or.inr ⟨q, rfl⟩
  | str s =>
    simp only [coerceNum]
    rcases parseNum s with _ | q
    · exact Or.inl rfl
    · exact Or.inr ⟨q, rfl⟩
  | date t => exact Or.inl rfl

theorem coerceStr_shape (v : Val) : ∃ s, coerceStr v = Val.str s := by
  cases v with
  | null => exact ⟨"None", rfl⟩
  | num q => exact ⟨toString q, rfl⟩
  | str s => exact ⟨s, rfl⟩
  | date t => exact ⟨formatDT t, rfl⟩

/-! ### Ordering helpers for the timestamp sort -/

theorem DateTime.leb_trans (a b c : DateTime)
    (h1 : a.leb b = true) (h2 : b.leb c = true) : a.leb c = true := by
  simp only [DateTime.leb, decide_eq_true_eq] at h1 h2 ⊢
  omega

theorem DateTime.leb_total (a b : DateTime) : a.leb b = true ∨ b.leb a = true := by
  simp only [DateTime.leb, decide_eq_true_eq]
  omega

theorem tsLe_trans {x y z : Option DateTime}
    (h1 : tsLe x y = true) (h2 : tsLe y z = true) : tsLe x z = true := by
  cases x <;> cases y <;> cases z <;> simp [tsLe] at h1 h2 ⊢
  exact DateTime.leb_trans _ _ _ h1 h2

theorem tsLe_total (x y : Option DateTime) : tsLe x y = true ∨ tsLe y x = true := by
  cases x <;> cases y <;> simp [tsLe]
  exact DateTime.leb_total _ _

theorem tsLe_none_left {y : Option DateTime} (h : tsLe none y = true) : y = none := by
  cases y with
  | none => rfl
  | some t => cases h

instance (j : Nat) : IsTotal (List Val) (rowLe j) :=
  ⟨fun _ _ => tsLe_total _ _⟩

instance (j : Nat) : IsTrans (List Val) (rowLe j) :=
  ⟨fun _ _ _ => tsLe_trans⟩

theorem sortByTimestamp_perm (df : Df) : (sortByTimestamp df).rows.Perm df.rows :=
  List.perm_insertionSort _ _

theorem sortByTimestamp_sorted (df : Df) :
    List.Sorted (rowLe ((exactIdx df.header "Timestamp").getD df.header.length))
      (sortByTimestamp df).rows :=
  List.sorted_insertionSort _ _

/-! ### Column-selection helpers -/

theorem lastLowerIdx_spec {hdr : List String} {w : String} {j : Nat}
    (h : lastLowerIdx hdr w = some j) :
    j < hdr.length ∧ lowerStr (hdr.getD j "") = lowerStr w := by
  induction hdr generalizing j with
  | nil => cases h
  | cons c rest ih =>
    rw [lastLowerIdx] at h
    rcases hr : lastLowerIdx rest w with _ | j0
    · rw [hr] at h
      by_cases hc : lowerStr c = lowerStr w
      · rw [if_pos hc] at h
        cases h
        exact ⟨Nat.succ_pos _, hc⟩
      · rw [if_neg hc] at h
        cases h
    · rw [hr] at h
      cases h
      obtain ⟨hl, he⟩ := ih hr
      refine ⟨Nat.succ_lt_succ hl, ?_⟩
      simpa using he

theorem lastLowerIdx_isSome {hdr : List String} {w : String}
    (h : ∃ c ∈ hdr, lowerStr c = lowerStr w) :
    (lastLowerIdx hdr w).isSome = true := by
  induction hdr with
  | nil => simp at h
  | cons c rest ih =>
    rw [lastLowerIdx]
    rcases hr : lastLowerIdx rest w with _ | j0
    · rcases h with ⟨c0, hc0, he⟩
      rcases List.mem_cons.mp hc0 with rfl | hmem
      · simp [he]
      · have := ih ⟨c0, hmem, he⟩
        rw [hr] at this
        cases this
    · simp

theorem lastLowerIdx_none {hdr : List String} {w : String}
    (h : lastLowerIdx hdr w = none) :
    ∀ c ∈ hdr, lowerStr c ≠ lowerStr w := by
  intro c hc he
  have := lastLowerIdx_isSome ⟨c, hc, he⟩
  rw [h] at this
  cases this

theorem exactIdx_eq_none {hdr : List String} {w : String} (h : w ∉ hdr) :
    exactIdx hdr w = none := by
  induction hdr with
  | nil => rfl
  | cons c rest ih =>
    simp only [List.mem_cons, not_or] at h
    rw [exactIdx, if_neg (fun hcw : c = w => h.1 hcw.symm), ih h.2]
    rfl

theorem selIdx_of_lower_match {hdr : List String} {w : String}
    (h : ∃ c ∈ hdr, lowerStr c = lowerStr w) :
    ∃ j, selIdx hdr w = some j ∧ j < hdr.length ∧
      lowerStr (hdr.getD j "") = lowerStr w := by
  have hs := lastLowerIdx_isSome h
  rcases hj : lastLowerIdx hdr w with _ | j
  · rw [hj] at hs; cases hs
  · obtain ⟨hl, he⟩ := lastLowerIdx_spec hj
    exact ⟨j, by rw [selIdx, hj], hl, he⟩

theorem getD_mem_of_lt {α : Type} {l : List α} {j : Nat} {d : α}
    (h : j < l.length) : l.getD j d ∈ l := by
  induction l generalizing j with
  | nil => cases h
  | cons c rest ih =>
    cases j with
    | zero => exact List.mem_cons_self _ _
    | succ j0 => exact List.mem_cons_of_mem _ (ih (Nat.lt_of_succ_lt_succ h))

theorem selIdx_of_no_lower_match {hdr : List String} {w : String}
    (h : ∀ c ∈ hdr, lowerStr c ≠ lowerStr w) :
    selIdx hdr w = none ∧ w ∉ hdr := by
  have hmem : w ∉ hdr := fun hw => h w hw rfl
  rcases hj : lastLowerIdx hdr w with _ | j
  · exact ⟨by rw [selIdx, hj]; exact exactIdx_eq_none hmem, hmem⟩
  · obtain ⟨hl, he⟩ := lastLowerIdx_spec hj
    exact absurd he (h _ (getD_mem_of_lt hl))

theorem load_all_of_empty {stored : Df} (h : stored.rows = []) :
    load_all stored = stored := by
  rw [load_all, if_pos]
  simp [Df.isEmpty, h]

theorem load_all_of_nonempty {stored : Df} (h1 : stored.rows ≠ []) (h2 : stored.header ≠ []) :
    load_all stored = sortByTimestamp (_normalize_columns stored) := by
  rw [load_all, if_neg]
  simp [Df.isEmpty, h1, h2]

theorem load_all_sorted_aux {stored : Df} (h1 : stored.rows ≠ []) (h2 : stored.header ≠ []) :
    (load_all stored).header = wanted ∧
    (load_all stored).rows.Perm ((_normalize_columns stored).rows) ∧
    List.Sorted (rowLe 0) (load_all stored).rows := by
  rw [load_all_of_nonempty h1 h2]
  refine ⟨rfl, sortByTimestamp_perm _, ?_⟩
  have hs := sortByTimestamp_sorted (_normalize_columns stored)
  have hj : (exactIdx (_normalize_columns stored).header "Timestamp").getD
      (_normalize_columns stored).header.length = 0 := by
    show (exactIdx wanted "Timestamp").getD wanted.length = 0
    decide
  rw [hj] at hs
  exact hs

/-! ### Round-trip of bootstrap followed by load -/

theorem coerceNum_idem (v : Val) : coerceNum (coerceNum v) = coerceNum v := by
  rcases coerceNum_shape v with h | ⟨q, h⟩ <;> rw [h] <;> rfl

theorem coerceStr_idem (v : Val) : coerceStr (coerceStr v) = coerceStr v := by
  obtain ⟨s, h⟩ := coerceStr_shape v
  rw [h]
  rfl

theorem coerceTs_fmt {v : Val}
    (hv : (match v with | Val.date _ => false | _ => true) = true) :
    coerceTs (fmtCell (coerceTs v)) = coerceTs v := by
  cases v with
  | null => rfl
  | num q => rfl
  | date t => cases hv
  | str s =>
    rcases hp : parseDT s with _ | t
    · simp only [coerceTs, hp, fmtCell]
    · simp only [coerceTs, hp, fmtCell, parseDT_roundtrip hp]

theorem normalizeRow_wanted_header {df : Df} (hh : df.header = wanted) (r : List Val) :
    normalizeRow df r =
      [coerceTs (r.getD 0 Val.null), coerceNum (r.getD 1 Val.null),
       coerceNum (r.getD 2 Val.null), coerceNum (r.getD 3 Val.null),
       coerceStr (r.getD 4 Val.null), coerceNum (r.getD 5 Val.null)] := by
  rw [normalizeRow_eq]
  simp only [selCell, hh]
  rw [show selIdx wanted "Timestamp" = some 0 from by decide,
    show selIdx wanted "CPU" = some 1 from by decide,
    show selIdx wanted "Memory" = some 2 from by decide,
    show selIdx wanted "Disk" = some 3 from by decide,
    show selIdx wanted "Ping_Status" = some 4 from by decide,
    show selIdx wanted "Ping_ms" = some 5 from by decide]

theorem cell_not_date_of_all {r : List Val}
    (hr : r.all (fun v => match v with | Val.date _ => false | _ => true) = true)
    (j : Nat) :
    (match r.getD j Val.null with | Val.date _ => false | _ => true) = true := by
  rcases Nat.lt_or_ge j r.length with hj | hj
  · exact List.all_eq_true.mp hr _ (getD_mem_of_lt hj)
  · rw [List.getD_eq_default _ _ hj]

theorem selCell_not_date {csv : Df} {r : List Val}
    (hr : r.all (fun v => match v with | Val.date _ => false | _ => true) = true)
    (w : String) :
    (match selCell csv r w with | Val.date _ => false | _ => true) = true := by
  rcases hsel : selIdx csv.header w with _ | j
  · rw [selCell, hsel]
  · rw [selCell, hsel]
    exact cell_not_date_of_all hr j

theorem normalizeRow_fmt_roundtrip {csv : Df} {r : List Val}
    (hr : r.all (fun v => match v with | Val.date _ => false | _ => true) = true)
    {stored : Df} (hh : stored.header = wanted) :
    normalizeRow stored (mapCell fmtCell 0 (normalizeRow csv r)) = normalizeRow csv r := by
  rw [normalizeRow_eq csv r, normalizeRow_wanted_header hh]
  simp only [mapCell, List.getD_cons_zero, List.getD_cons_succ, List.cons.injEq, and_true]
  exact ⟨coerceTs_fmt (selCell_not_date hr "Timestamp"), coerceNum_idem _, coerceNum_idem _,
    coerceNum_idem _, coerceStr_idem _, coerceNum_idem _⟩

theorem fmtTs_normalize_rows (csv : Df) :
    (fmtTs (_normalize_columns csv)).rows
      = (_normalize_columns csv).rows.map (mapCell fmtCell 0) := by
  show (_normalize_columns csv).rows.map
      (mapCell fmtCell ((exactIdx wanted "Timestamp").getD wanted.length)) = _
  rw [show (exactIdx wanted "Timestamp").getD wanted.length = 0 from by decide]

theorem stored_normalize_rows_eq {csv : Df} (hcsv : csvLike csv = true) :
    (_normalize_columns (fmtTs (_normalize_columns csv))).rows
      = (_normalize_columns csv).rows := by
  have hh : (fmtTs (_normalize_columns csv)).header = wanted := rfl
  have hall := hcsv
  rw [csvLike] at hall
  show (fmtTs (_normalize_columns csv)).rows.map (normalizeRow (fmtTs (_normalize_columns csv)))
      = csv.rows.map (normalizeRow csv)
  rw [fmtTs_normalize_rows]
  show ((csv.rows.map (normalizeRow csv)).map (mapCell fmtCell 0)).map
      (normalizeRow (fmtTs (_normalize_columns csv))) = _
  rw [List.map_map, List.map_map]
  apply List.map_congr_left
  intro r hrm
  have hcells : r.all (fun v => match v with | Val.date _ => false | _ => true) = true := by
    simpa using List.all_eq_true.mp hall r hrm
  simp only [Function.comp_apply]
  exact normalizeRow_fmt_roundtrip hcells hh

/-! ### Claim theorems -/

/-- C1 counterexample: when the `SELECT` read fails, `load_all` does not
return any successful "no data" value — the error propagates (the
`try/finally` in lines 90-93 has no `except` clause), refuting the
claim that a failing query yields a sentinel rather than raising. -/
theorem load_all_error_not_ok :
    ¬ ∃ df : Df, load_all_result (Except.error "no such table: logs") = Except.ok df := by
  rintro ⟨df, h⟩
  cases h

/-- C1 amended: when the underlying store read or `SELECT` query fails,
`load_all` propagates the failure to the caller unchanged (the
connection is closed by the `finally` block, but no sentinel value is
returned). -/
theorem load_all_propagates_error (e : String) :
    load_all_result (Except.error e) = Except.error e := rfl

/-- C2: for every input table, regardless of column casing, order or
subset, `_normalize_columns` returns exactly the six canonical fields
`Timestamp, CPU, Memory, Disk, Ping_Status, Ping_ms` in that fixed
order, one output row per input row, with `Timestamp` parsed to a
date-time, `CPU`/`Memory`/`Disk`/`Ping_ms` numeric and `Ping_Status`
text. -/
theorem normalize_canonical_shape (df : Df) :
    (_normalize_columns df).header
        = ["Timestamp", "CPU", "Memory", "Disk", "Ping_Status", "Ping_ms"] ∧
    (_normalize_columns df).rows.length = df.rows.length ∧
    ∀ r ∈ (_normalize_columns df).rows, RowShape r := by
  refine ⟨rfl, by simp [_normalize_columns], ?_⟩
  intro r hr
  simp only [_normalize_columns, List.mem_map] at hr
  obtain ⟨r0, _, rfl⟩ := hr
  rw [normalizeRow_eq]
  exact ⟨rfl, coerceTs_shape _, coerceNum_shape _, coerceNum_shape _, coerceNum_shape _,
    coerceStr_shape _, coerceNum_shape _⟩

/-- C2 witness: the shape theorem applied to a concrete one-column frame
whose only column matches `Ping_Status` case-insensitively. -/
theorem normalize_canonical_shape_witness :
    RowShape [Val.null, Val.null, Val.null, Val.null, Val.str "UP", Val.null] :=
  (normalize_canonical_shape ⟨["ping_status"], [[Val.str "UP"]]⟩).2.2
    [Val.null, Val.null, Val.null, Val.null, Val.str "UP", Val.null] (by decide)

/-- C3: normalization is total — every input table, including zero-row
and zero-column ones, yields a well-formed canonical table — and each
missing column, unparseable timestamp or non-numeric metric cell
degrades to a missing value instead of aborting. -/
theorem normalize_never_raises :
    (∀ df : Df, (_normalize_columns df).header = wanted ∧
      (_normalize_columns df).rows.length = df.rows.length ∧
      ∀ r ∈ (_normalize_columns df).rows, r.length = 6) ∧
    _normalize_columns ⟨[], []⟩ = ⟨wanted, []⟩ ∧
    (∀ (df : Df) (r : List Val) (w : String),
      selIdx df.header w = none → selCell df r w = Val.null) ∧
    (∀ s, parseDT s = none → coerceTs (Val.str s) = Val.null) ∧
    (∀ s, parseNum s = none → coerceNum (Val.str s) = Val.null) ∧
    parseDT "2024-99-99 99:99:99" = none ∧ parseNum "abc" = none := by
  refine ⟨?_, by decide, ?_, ?_, ?_, by decide, by decide⟩
  · intro df
    refine ⟨rfl, by simp [_normalize_columns], ?_⟩
    intro r hr
    simp only [_normalize_columns, List.mem_map] at hr
    obtain ⟨r0, _, rfl⟩ := hr
    rfl
  · intro df r w h
    simp only [selCell, h]
  · intro s h
    simp only [coerceTs, h]
  · intro s h
    simp only [coerceNum, h]

/-- C3 witness: totality and null-degradation at concrete inputs. -/
theorem normalize_never_raises_witness :
    ([Val.null, Val.num 1, Val.null, Val.null, Val.str "None", Val.null] : List Val).length = 6 ∧
    selCell ⟨["cpu"], [[Val.num 1]]⟩ [Val.num 1] "Disk" = Val.null ∧
    coerceTs (Val.str "garbage") = Val.null ∧
    coerceNum (Val.str "n/a") = Val.null :=
  ⟨(normalize_never_raises.1 ⟨["cpu"], [[Val.num 1]]⟩).2.2
      [Val.null, Val.num 1, Val.null, Val.null, Val.str "None", Val.null] (by decide),
   normalize_never_raises.2.2.1 ⟨["cpu"], [[Val.num 1]]⟩ [Val.num 1] "Disk" (by decide),
   normalize_never_raises.2.2.2.1 "garbage" (by decide),
   normalize_never_raises.2.2.2.2.1 "n/a" (by decide)⟩

/-- C4: column selection tries an exact case-insensitive match first
(and the selected column is such a match); when no case-insensitive
match exists, the exact case-sensitive fallback also finds nothing (the
name is not among the columns) and the whole output column is filled
with missing values, one per input row. -/
theorem normalize_selection_policy :
    (∀ (hdr : List String) (w : String), (∃ c ∈ hdr, lowerStr c = lowerStr w) →
      ∃ j, selIdx hdr w = some j ∧ j < hdr.length ∧
        lowerStr (hdr.getD j "") = lowerStr w) ∧
    (∀ (hdr : List String) (w : String), (∀ c ∈ hdr, lowerStr c ≠ lowerStr w) →
      selIdx hdr w = none ∧ w ∉ hdr) ∧
    (∀ (df : Df) (w : String), selIdx df.header w = none →
      df.rows.map (fun r => selCell df r w) = List.replicate df.rows.length Val.null) := by
  refine ⟨fun hdr w h => selIdx_of_lower_match h,
    fun hdr w h => selIdx_of_no_lower_match h, ?_⟩
  intro df w h
  rw [List.eq_replicate_iff]
  refine ⟨by simp, ?_⟩
  intro b hb
  simp only [List.mem_map] at hb
  obtain ⟨r, _, rfl⟩ := hb
  simp only [selCell, h]

/-- C4 witness: the selection policy at concrete headers — a
case-insensitive match (the later of two candidate columns), a miss, and
a null-filled output column. -/
theorem normalize_selection_policy_witness :
    (∃ j, selIdx ["Cpu", "cpu"] "CPU" = some j ∧ j < (["Cpu", "cpu"] : List String).length ∧
      lowerStr ((["Cpu", "cpu"] : List String).getD j "") = lowerStr "CPU") ∧
    (selIdx ["foo"] "CPU" = none ∧ "CPU" ∉ (["foo"] : List String)) ∧
    ((⟨["foo"], [[Val.null]]⟩ : Df).rows.map
        (fun r => selCell ⟨["foo"], [[Val.null]]⟩ r "CPU")
      = List.replicate ((⟨["foo"], [[Val.null]]⟩ : Df)).rows.length Val.null) :=
  ⟨normalize_selection_policy.1 ["Cpu", "cpu"] "CPU" (by decide),
   normalize_selection_policy.2.1 ["foo"] "CPU" (by decide),
   normalize_selection_policy.2.2 ⟨["foo"], [[Val.null]]⟩ "CPU" (by decide)⟩

/-- C6: applying the status filter with the "全部" (ALL) selection is
the identity on the table — rows and their order are unchanged. -/
theorem applyFilter_all_identity (df : Df) : applyFilter df "全部" = df := by
  simp [applyFilter]

/-- C8: `ensure_db_and_table` is idempotent — when the records table
already exists the store is left unchanged, and a second run after any
first run has no further effect. -/
theorem ensure_db_and_table_idempotent :
    (∀ t csv, ensure_db_and_table (some t) csv = some t) ∧
    (∀ logs csv csv2,
      ensure_db_and_table (ensure_db_and_table logs csv) csv2
        = ensure_db_and_table logs csv) := by
  refine ⟨fun t csv => rfl, fun logs csv csv2 => ?_⟩
  cases logs with
  | some t => rfl
  | none =>
    cases csv with
    | some c => rfl
    | none => rfl

/-- C5: `load_all` returns the stored frame unchanged — skipping
normalization — whenever the stored table has no rows; on a non-empty
stored table it returns the normalized rows (a permutation of them)
sorted ascending by the `Timestamp` field. -/
theorem load_all_empty_and_sorted :
    (∀ stored : Df, stored.rows = [] → load_all stored = stored) ∧
    (∀ stored : Df, stored.rows ≠ [] → stored.header ≠ [] →
      (load_all stored).header = wanted ∧
      (load_all stored).rows.Perm ((_normalize_columns stored).rows) ∧
      List.Sorted (rowLe 0) (load_all stored).rows) :=
  ⟨fun _ h => load_all_of_empty h, fun _ h1 h2 => load_all_sorted_aux h1 h2⟩

/-- C5 witness: the empty branch on a zero-row store (returned verbatim,
with its non-canonical header untouched), and the non-empty branch on a
concrete two-row store. -/
theorem load_all_empty_and_sorted_witness :
    load_all ⟨["x"], []⟩ = ⟨["x"], []⟩ ∧
    ((load_all ⟨["Timestamp", "Ping_Status"],
        [[Val.str "2024-01-02 10:00:00", Val.str "UP"],
         [Val.str "2024-01-01 09:00:00", Val.str "DOWN"]]⟩).header = wanted ∧
      (load_all ⟨["Timestamp", "Ping_Status"],
        [[Val.str "2024-01-02 10:00:00", Val.str "UP"],
         [Val.str "2024-01-01 09:00:00", Val.str "DOWN"]]⟩).rows.Perm
        ((_normalize_columns ⟨["Timestamp", "Ping_Status"],
          [[Val.str "2024-01-02 10:00:00", Val.str "UP"],
           [Val.str "2024-01-01 09:00:00", Val.str "DOWN"]]⟩).rows) ∧
      List.Sorted (rowLe 0) (load_all ⟨["Timestamp", "Ping_Status"],
        [[Val.str "2024-01-02 10:00:00", Val.str "UP"],
         [Val.str "2024-01-01 09:00:00", Val.str "DOWN"]]⟩).rows) :=
  ⟨load_all_empty_and_sorted.1 ⟨["x"], []⟩ rfl,
   load_all_empty_and_sorted.2 ⟨["Timestamp", "Ping_Status"],
      [[Val.str "2024-01-02 10:00:00", Val.str "UP"],
       [Val.str "2024-01-01 09:00:00", Val.str "DOWN"]]⟩ (by decide) (by decide)⟩

/-- C7: with filter value "UP" or "DOWN", the status filter keeps
exactly the rows whose `Ping_Status` cell equals the filter string under
case-sensitive equality, as a sublist (original relative order); a row
with status "up" is excluded under filter "UP", and the
{UP, DOWN, UP, DOWN, DOWN} table filtered by "DOWN" yields exactly the
three DOWN rows. -/
theorem applyFilter_status_exact :
    (∀ (df : Df) (s : String), s = "UP" ∨ s = "DOWN" →
      (applyFilter df s).header = df.header ∧
      (applyFilter df s).rows.Sublist df.rows ∧
      (∀ r ∈ (applyFilter df s).rows,
        r.getD ((exactIdx df.header "Ping_Status").getD df.header.length) Val.null
          = Val.str s) ∧
      (∀ r ∈ df.rows,
        r.getD ((exactIdx df.header "Ping_Status").getD df.header.length) Val.null
            = Val.str s →
          r ∈ (applyFilter df s).rows)) ∧
    (applyFilter ⟨["Ping_Status"], [[Val.str "up"], [Val.str "UP"]]⟩ "UP").rows
      = [[Val.str "UP"]] ∧
    (applyFilter ⟨["Ping_Status"],
        [[Val.str "UP"], [Val.str "DOWN"], [Val.str "UP"], [Val.str "DOWN"],
         [Val.str "DOWN"]]⟩ "DOWN").rows
      = [[Val.str "DOWN"], [Val.str "DOWN"], [Val.str "DOWN"]] := by
  refine ⟨?_, by decide, by decide⟩
  intro df s hs
  have hne : s ≠ "全部" := by rcases hs with rfl | rfl <;> decide
  simp only [applyFilter, if_pos hne]
  refine ⟨trivial, List.filter_sublist _, ?_, ?_⟩
  · intro r hr
    exact beq_iff_eq.mp (List.mem_filter.mp hr).2
  · intro r hr hcell
    exact List.mem_filter.mpr ⟨hr, by simpa using hcell⟩

/-- C7 witness: the filter contract applied at a concrete two-row
table with filter value "UP". -/
theorem applyFilter_status_exact_witness :
    (applyFilter ⟨["Ping_Status"], [[Val.str "UP"], [Val.str "DOWN"]]⟩ "UP").header
        = ["Ping_Status"] ∧
    (applyFilter ⟨["Ping_Status"], [[Val.str "UP"], [Val.str "DOWN"]]⟩ "UP").rows.Sublist
        [[Val.str "UP"], [Val.str "DOWN"]] ∧
    (∀ r ∈ (applyFilter ⟨["Ping_Status"], [[Val.str "UP"], [Val.str "DOWN"]]⟩ "UP").rows,
      r.getD 0 Val.null = Val.str "UP") ∧
    (∀ r ∈ ([[Val.str "UP"], [Val.str "DOWN"]] : List (List Val)),
      r.getD 0 Val.null = Val.str "UP" →
        r ∈ (applyFilter ⟨["Ping_Status"], [[Val.str "UP"], [Val.str "DOWN"]]⟩ "UP").rows) :=
  applyFilter_status_exact.1 ⟨["Ping_Status"], [[Val.str "UP"], [Val.str "DOWN"]]⟩ "UP"
    (Or.inl rfl)

/-- C10: in the table `load_all` returns from a non-empty store, every
row whose timestamp failed to parse (missing after normalization) comes
after all rows with parsed timestamps — the sort places missing keys
last and handles them without failing. -/
theorem load_all_nulls_last (stored : Df)
    (h1 : stored.rows ≠ []) (h2 : stored.header ≠ []) :
    List.Pairwise
      (fun r1 r2 => tsOf (r1.getD 0 Val.null) = none → tsOf (r2.getD 0 Val.null) = none)
      (load_all stored).rows := by
  have hs := (load_all_sorted_aux h1 h2).2.2
  refine hs.imp ?_
  intro a b hab hnone
  have hle : tsLe (tsOf (a.getD 0 Val.null)) (tsOf (b.getD 0 Val.null)) = true := hab
  rw [hnone] at hle
  exact tsLe_none_left hle

/-- C9: bootstrapping an absent store from a fallback CSV and then
loading reproduces the CSV's data: the loaded table has the same row
count as the CSV, and its rows are a permutation of the normalized CSV
rows (identical numeric values and status text, timestamps reparsed
from their serialized form); moreover the stored timestamp column holds
only missing values or fixed-format `YYYY-MM-DD HH:MM:SS` strings. -/
theorem bootstrap_load_roundtrip (csv : Df) (hcsv : csvLike csv = true) :
    (load_all ((ensure_db_and_table none (some csv)).getD emptyLogs)).rows.length
        = csv.rows.length ∧
    (load_all ((ensure_db_and_table none (some csv)).getD emptyLogs)).rows.Perm
        ((_normalize_columns csv).rows) ∧
    ∀ r ∈ ((ensure_db_and_table none (some csv)).getD emptyLogs).rows,
      r.getD 0 Val.null = Val.null ∨ ∃ t, r.getD 0 Val.null = Val.str (formatDT t) := by
  have hgetd : (ensure_db_and_table none (some csv)).getD emptyLogs
      = fmtTs (_normalize_columns csv) := rfl
  rw [hgetd]
  have hperm : (load_all (fmtTs (_normalize_columns csv))).rows.Perm
      ((_normalize_columns csv).rows) := by
    rcases hrows : csv.rows with _ | ⟨r0, rest⟩
    · have hsr : (fmtTs (_normalize_columns csv)).rows = [] := by
        rw [fmtTs_normalize_rows]
        show ((csv.rows.map (normalizeRow csv)).map (mapCell fmtCell 0)) = []
        rw [hrows]
        rfl
      rw [load_all_of_empty hsr, hsr]
      have hnr : (_normalize_columns csv).rows = [] := by
        show csv.rows.map (normalizeRow csv) = []
        rw [hrows]
        rfl
      rw [hnr]
    · have h1 : (fmtTs (_normalize_columns csv)).rows ≠ [] := by
        rw [fmtTs_normalize_rows]
        show ((csv.rows.map (normalizeRow csv)).map (mapCell fmtCell 0)) ≠ []
        rw [hrows]
        simp
      have h2 : (fmtTs (_normalize_columns csv)).header ≠ [] := by
        show wanted ≠ []
        decide
      have hs := (load_all_sorted_aux h1 h2).2.1
      rw [stored_normalize_rows_eq hcsv] at hs
      exact hs
  refine ⟨?_, hperm, ?_⟩
  · rw [hperm.length_eq]
    show (csv.rows.map (normalizeRow csv)).length = csv.rows.length
    rw [List.length_map]
  · intro r hrm
    rw [fmtTs_normalize_rows] at hrm
    simp only [List.mem_map] at hrm
    obtain ⟨n, hn, rfl⟩ := hrm
    simp only [_normalize_columns, List.mem_map] at hn
    obtain ⟨r0, _, rfl⟩ := hn
    rw [normalizeRow_eq]
    rcases coerceTs_shape (selCell csv r0 "Timestamp") with h | ⟨t, h⟩
    · left
      simp only [mapCell, h, List.getD_cons_zero]
      rfl
    · right
      refine ⟨t, ?_⟩
      simp only [mapCell, h, List.getD_cons_zero]
      rfl

/-- C9 witness: the round-trip theorem applied to a concrete one-row
CSV with a timestamp column and a numeric column. -/
theorem bootstrap_load_roundtrip_witness :
    csvLike ⟨["timestamp", "cpu"], [[Val.str "2024-01-02 03:04:05", Val.str "55"]]⟩ = true ∧
    ((load_all ((ensure_db_and_table none
          (some ⟨["timestamp", "cpu"],
            [[Val.str "2024-01-02 03:04:05", Val.str "55"]]⟩)).getD emptyLogs)).rows.length
        = (⟨["timestamp", "cpu"],
            [[Val.str "2024-01-02 03:04:05", Val.str "55"]]⟩ : Df).rows.length ∧
      (load_all ((ensure_db_and_table none
          (some ⟨["timestamp", "cpu"],
            [[Val.str "2024-01-02 03:04:05", Val.str "55"]]⟩)).getD emptyLogs)).rows.Perm
        ((_normalize_columns ⟨["timestamp", "cpu"],
            [[Val.str "2024-01-02 03:04:05", Val.str "55"]]⟩).rows) ∧
      ∀ r ∈ ((ensure_db_and_table none
          (some ⟨["timestamp", "cpu"],
            [[Val.str "2024-01-02 03:04:05", Val.str "55"]]⟩)).getD emptyLogs).rows,
        r.getD 0 Val.null = Val.null ∨ ∃ t, r.getD 0 Val.null = Val.str (formatDT t)) :=
  ⟨by decide,
   bootstrap_load_roundtrip
     ⟨["timestamp", "cpu"], [[Val.str "2024-01-02 03:04:05", Val.str "55"]]⟩ (by decide)⟩

/-- C10 witness: a store holding one unparseable and one parseable
timestamp. -/
theorem load_all_nulls_last_witness :
    List.Pairwise
      (fun r1 r2 => tsOf (r1.getD 0 Val.null) = none → tsOf (r2.getD 0 Val.null) = none)
      (load_all ⟨["Timestamp"], [[Val.str "bad"], [Val.str "2024-01-01 00:00:00"]]⟩).rows :=
  load_all_nulls_last ⟨["Timestamp"], [[Val.str "bad"], [Val.str "2024-01-01 00:00:00"]]⟩
    (by decide) (by decide)

end Dashboard
